import Mathlib

/-!
Verification of the task-store core of `todo.py` (repository Mohit0086/Todolist).

The Python module is shallowly embedded below.  Python strings are modelled as
lists of characters (`Str`); the ASCII fragment is modelled exactly, Unicode
subtleties of `str.lower` / `int()` / `\d` are elided.  Raised exceptions are
modelled with `Except`: a method of `TodoDB` that can raise and that mutates
`self` is embedded as a function returning the post-call store state together
with an `Except` outcome, so a call that raises after a partial in-place
mutation is represented faithfully.  File input/output is abstracted: `_load`
and `import_file` receive the parsed JSON content (or a parse-failure marker)
instead of a path, and `_save` (which does not change the in-memory state) is
dropped.
-/

namespace TodoSpec

/-- Python strings, modelled as lists of characters. -/
abbrev Str := List Char

/-- The exception taxonomy of `todo.py`: `ValueError` raised for validation
failures, `LookupError` for a missing id, `IOError` for file failures. -/
inductive Err where
  | validation
  | notFound
  | ioFailure
  deriving DecidableEq

/-- The `Task` dataclass (typed view, fields as declared in the dataclass):
`id`, `title`, `description`, `created_at`, `due` (`Optional[str]`),
`tags` (`List[str]`), `done`. -/
structure Task where
  id : Int
  title : Str
  description : Str
  created_at : Str
  due : Option Str
  tags : List Str
  done : Bool
  deriving DecidableEq

/-- The in-memory state of `TodoDB`: the ordered task list (the bound file
path plays no role in the embedded operations). -/
structure TodoDB where
  tasks : List Task
  deriving DecidableEq

/-! ## The date validator

`TodoDB._validate_date` calls `datetime.strptime(d, "%Y-%m-%d")` and turns any
`ValueError` into a validation failure.  CPython's `_strptime` compiles the
format into the anchored regular expression
`(?P<Y>\d\d\d\d)-(?P<m>1[0-2]|0[1-9]|[1-9])-(?P<d>3[0-1]|[1-2]\d|0[1-9]|[1-9]| [1-9])`,
requires the whole input to be consumed ("unconverted data remains"
otherwise), and then builds `datetime(year, month, day)`, which additionally
checks `1 <= year` and that the day exists in the given month.  The parsers
below reproduce that regular expression (restricted to ASCII digits) with its
left-to-right alternation priority; the priority is deterministic here because
a committed two-character branch can never be rescued by a shorter
alternative (the follow-up character would have to be both a digit class
member and the literal hyphen). -/

/-- ASCII decimal digit (the `\d` class restricted to ASCII). -/
def isDigitChar (c : Char) : Bool :=
  c ∈ ['0', '1', '2', '3', '4', '5', '6', '7', '8', '9']

/-- Numeric value of an ASCII digit character. -/
def digitVal (c : Char) : Nat := c.toNat - 48

/-- `int()` of a string of ASCII digits. -/
def strVal (s : Str) : Nat := s.foldl (fun a c => a * 10 + digitVal c) 0

/-- The `%Y` directive: exactly four decimal digits. -/
def parseY : Str → Option (Nat × Str)
  | c1 :: c2 :: c3 :: c4 :: rest =>
    if isDigitChar c1 && isDigitChar c2 && isDigitChar c3 && isDigitChar c4 then
      some (strVal [c1, c2, c3, c4], rest)
    else none
  | _ => none

/-- The `%m` directive: `1[0-2]|0[1-9]|[1-9]` with alternation priority. -/
def parseM : Str → Option (Nat × Str)
  | '1' :: c :: rest =>
    if c ∈ ['0', '1', '2'] then some (strVal ['1', c], rest) else some (1, c :: rest)
  | '0' :: c :: rest =>
    if c ∈ ['1', '2', '3', '4', '5', '6', '7', '8', '9'] then some (strVal ['0', c], rest)
    else none
  | c :: rest =>
    if c ∈ ['1', '2', '3', '4', '5', '6', '7', '8', '9'] then some (strVal [c], rest)
    else none
  | [] => none

/-- The `%d` directive: `3[0-1]|[1-2]\d|0[1-9]|[1-9]| [1-9]` with alternation
priority (note the last branch: a space-padded single digit). -/
def parseD : Str → Option (Nat × Str)
  | '3' :: c :: rest =>
    if c ∈ ['0', '1'] then some (strVal ['3', c], rest) else some (3, c :: rest)
  | '0' :: c :: rest =>
    if c ∈ ['1', '2', '3', '4', '5', '6', '7', '8', '9'] then some (strVal ['0', c], rest)
    else none
  | ' ' :: c :: rest =>
    if c ∈ ['1', '2', '3', '4', '5', '6', '7', '8', '9'] then some (strVal [c], rest)
    else none
  | c1 :: c2 :: rest =>
    if (c1 = '1' || c1 = '2') && isDigitChar c2 then some (strVal [c1, c2], rest)
    else if c1 ∈ ['1', '2', '4', '5', '6', '7', '8', '9'] then some (strVal [c1], c2 :: rest)
    else none
  | [c] =>
    if c ∈ ['1', '2', '3', '4', '5', '6', '7', '8', '9'] then some (strVal [c], [])
    else none
  | [] => none

/-- Literal `-` between the directives. -/
def expectDash : Str → Option Str
  | '-' :: r => some r
  | _ => none

/-- Proleptic-Gregorian leap year, as in `datetime`. -/
def isLeap (y : Nat) : Bool := y % 4 == 0 && (y % 100 != 0 || y % 400 == 0)

/-- Length of a month, as enforced by the `datetime.date` constructor. -/
def daysInMonth (y m : Nat) : Nat :=
  if m = 2 then (if isLeap y then 29 else 28)
  else if m = 4 || m = 6 || m = 9 || m = 11 then 30
  else 31

/-- The checks performed by the `datetime(year, month, day)` constructor. -/
def dateOk (y m d : Nat) : Bool :=
  decide (1 ≤ y ∧ y ≤ 9999 ∧ 1 ≤ m ∧ m ≤ 12 ∧ 1 ≤ d ∧ d ≤ daysInMonth y m)

/-- `datetime.strptime(s, "%Y-%m-%d")`: regex match, full-consumption check,
then date construction; `none` models the raised `ValueError`. -/
def strptimeYmd (s : Str) : Option (Nat × Nat × Nat) := do
  let (y, r1) ← parseY s
  let r2 ← expectDash r1
  let (m, r3) ← parseM r2
  let r4 ← expectDash r3
  let (d, r5) ← parseD r4
  if r5 = [] then
    if dateOk y m d then some (y, m, d) else none
  else none

/-- `TodoDB._validate_date`: `true` means the call returns normally, `false`
means it raises `ValueError` (reported as `Err.validation` by the callers). -/
def validate_date (s : Str) : Bool := (strptimeYmd s).isSome

/-! ## Store operations (typed layer) -/

/-- `TodoDB._next_id`: `1` on an empty collection, otherwise
`max(t.id for t in self.tasks) + 1`. -/
def next_id (db : TodoDB) : Int :=
  match db.tasks.map Task.id with
  | [] => 1
  | x :: xs => xs.foldl max x + 1

/-- Python truthiness of the `due` argument (`if due:`): `None` and the empty
string are falsy. -/
def dueTruthy : Option Str → Bool
  | none => false
  | some s => !s.isEmpty

/-- Python `tags or []` for an `Optional[List[str]]` argument. -/
def pyOrEmpty : Option (List Str) → List Str
  | none => []
  | some l => if l.isEmpty then [] else l

/-- `TodoDB.add`: validates `due` only when truthy, then appends a fresh task
(id from `_next_id`, `created_at` from the clock parameter `now`) and saves.
On a validation failure the exception propagates before any mutation. -/
def add (db : TodoDB) (now title description : Str) (due : Option Str)
    (tags : Option (List Str)) : TodoDB × Except Err Task :=
  if dueTruthy due && !validate_date (due.getD []) then (db, .error .validation)
  else
    let task : Task :=
      { id := next_id db, title := title, description := description,
        created_at := now, due := due, tags := pyOrEmpty tags, done := false }
    ({ tasks := db.tasks ++ [task] }, .ok task)

/-- `TodoDB.find_by_id`: first task with the given id, else `LookupError`. -/
def find_by_id (db : TodoDB) (id : Int) : Except Err Task :=
  match db.tasks.find? (fun t => t.id == id) with
  | some t => .ok t
  | none => .error .notFound

/-- In-place mutation of the task object returned by `find_by_id`: the first
list entry with the given id is replaced. -/
def updateFirst (ts : List Task) (id : Int) (t' : Task) : List Task :=
  match ts with
  | [] => []
  | t :: rest => if t.id == id then t' :: rest else t :: updateFirst rest id t'

/-- The `if tags is not None: task.tags = tags` step of `edit`. -/
def applyTags (t : Task) : Option (List Str) → Task
  | none => t
  | some l => { t with tags := l }

/-- `TodoDB.edit`: looks the task up, then updates the supplied fields in
source order (`title`, `description`, `due`, `tags`).  A `due` validation
failure raises after `title`/`description` were already assigned in place, so
the store keeps those partial updates; `due=""` clears the field. -/
def edit (db : TodoDB) (id : Int) (title description due : Option Str)
    (tags : Option (List Str)) : TodoDB × Except Err Task :=
  match find_by_id db id with
  | .error e => (db, .error e)
  | .ok task =>
    let t1 := match title with | none => task | some s => { task with title := s }
    let t2 := match description with | none => t1 | some s => { t1 with description := s }
    match due with
    | none =>
      let t4 := applyTags t2 tags
      ({ tasks := updateFirst db.tasks id t4 }, .ok t4)
    | some s =>
      if s.isEmpty then
        let t4 := applyTags { t2 with due := none } tags
        ({ tasks := updateFirst db.tasks id t4 }, .ok t4)
      else if validate_date s then
        let t4 := applyTags { t2 with due := some s } tags
        ({ tasks := updateFirst db.tasks id t4 }, .ok t4)
      else ({ tasks := updateFirst db.tasks id t2 }, .error .validation)

/-- Python `str.lower`, ASCII fragment. -/
def lowerStr (s : Str) : Str := s.map Char.toLower

/-- Python `" ".join(tags)`. -/
def joinSpace : List Str → Str
  | [] => []
  | [s] => s
  | s :: rest => s ++ ' ' :: joinSpace rest

/-- `TodoDB.search`: case-insensitive substring filter over title,
description and the space-joined tag list, preserving list order. -/
def search (db : TodoDB) (query : Str) : List Task :=
  let q := lowerStr query
  db.tasks.filter fun t =>
    decide (q <:+: lowerStr t.title) || decide (q <:+: lowerStr t.description) ||
      decide (q <:+: lowerStr (joinSpace t.tags))

/-- The id-reassignment loop of `import_file` with `merge=True`:
`for i, t in enumerate(new_tasks): t.id = base_id + i`. -/
def assignIds (base : Int) : List Task → List Task
  | [] => []
  | t :: rest => { t with id := base } :: assignIds (base + 1) rest

/-- `TodoDB.import_file` with `merge=True`, after the source file was read and
each record reconstructed: ids are reassigned from the current `_next_id`
(the original ids in the file are ignored) and the records are appended. -/
def import_merge (db : TodoDB) (new_tasks : List Task) : TodoDB :=
  { tasks := db.tasks ++ assignIds (next_id db) new_tasks }

/-- Arguments of one `add` call (the clock value included). -/
structure AddReq where
  now : Str
  title : Str
  description : Str
  due : Option Str
  tags : Option (List Str)

/-- A sequence of `add` calls; calls that raise leave the store unchanged. -/
def addMany (db : TodoDB) (reqs : List AddReq) : TodoDB :=
  reqs.foldl (fun d r => (add d r.now r.title r.description r.due r.tags).1) db

/-! ## JSON layer

`Task.from_dict` receives arbitrary decoded JSON, so it is embedded over a
JSON value type (floats and non-ASCII digits are elided; JSON objects decode
to Python dicts, modelled as association lists without duplicate-key
semantics, Python lookup taking the first hit). -/

/-- A decoded JSON value. -/
inductive JVal where
  | null
  | bool (b : Bool)
  | int (n : Int)
  | str (s : Str)
  | arr (xs : List JVal)
  | obj (fields : List (Str × JVal))

/-- A decoded JSON object / Python dict. -/
abbrev Dict := List (Str × JVal)

def JVal.isArr : JVal → Bool
  | .arr _ => true
  | _ => false

def JVal.isStr : JVal → Bool
  | .str _ => true
  | _ => false

/- Python `repr`, as used by `str` on containers.  Escaping of special
characters inside a quoted string is elided. -/
mutual

/-- Python `repr` of a decoded JSON value. -/
def pyRepr : JVal → Str
  | .null => ("None").toList
  | .bool b => if b then ("True").toList else ("False").toList
  | .int n => (toString n).toList
  | .str s => Char.ofNat 39 :: s ++ [Char.ofNat 39]
  | .arr xs => '[' :: pyReprList xs ++ [']']
  | .obj fs => Char.ofNat 123 :: pyReprFields fs ++ [Char.ofNat 125]

def pyReprList : List JVal → Str
  | [] => []
  | [v] => pyRepr v
  | v :: vs => pyRepr v ++ ',' :: ' ' :: pyReprList vs

def pyReprFields : List (Str × JVal) → Str
  | [] => []
  | [(k, v)] => pyRepr (.str k) ++ ':' :: ' ' :: pyRepr v
  | (k, v) :: fs => pyRepr (.str k) ++ ':' :: ' ' :: pyRepr v ++ ',' :: ' ' :: pyReprFields fs

end

/-- Python `str()` of a decoded JSON value (on scalars `str` and `repr`
agree, so their cases are spelled out directly). -/
def pyStr : JVal → Str
  | .null => ("None").toList
  | .bool b => if b then ("True").toList else ("False").toList
  | .int n => (toString n).toList
  | .str s => s
  | .arr xs => '[' :: pyReprList xs ++ [']']
  | .obj fs => Char.ofNat 123 :: pyReprFields fs ++ [Char.ofNat 125]

/-- Tail of a Python integer literal after its first digit: digits with
single interior underscores. -/
def digitsTail : Str → Bool
  | [] => true
  | '_' :: c :: rest => isDigitChar c && digitsTail rest
  | c :: rest => isDigitChar c && digitsTail rest

/-- Numeric value of a digit string, skipping underscores. -/
def strValU (s : Str) : Nat :=
  s.foldl (fun a c => if c = '_' then a else a * 10 + digitVal c) 0

def isPySpace (c : Char) : Bool := c = ' ' || c = '\t' || c = '\n' || c = '\r'

/-- Python `int()` of a string (ASCII fragment): optional surrounding
whitespace, optional sign, digits with single interior underscores. -/
def pyIntOfStr (s : Str) : Option Int :=
  let t := s.dropWhile isPySpace
  let t := (t.reverse.dropWhile isPySpace).reverse
  match t with
  | '+' :: c :: rest =>
    if isDigitChar c && digitsTail rest then some (strValU (c :: rest)) else none
  | '-' :: c :: rest =>
    if isDigitChar c && digitsTail rest then some (-(strValU (c :: rest) : Int)) else none
  | c :: rest =>
    if isDigitChar c && digitsTail rest then some (strValU (c :: rest)) else none
  | [] => none

/-- Python `int()` of a decoded JSON value; `none` models the raised
`TypeError`/`ValueError`. -/
def pyInt : JVal → Option Int
  | .int n => some n
  | .bool b => some (if b then 1 else 0)
  | .str s => pyIntOfStr s
  | _ => none

/-- Python `list()` of a decoded JSON value: a list is copied element-wise, a
string becomes its characters, a dict its keys; `none` models `TypeError`. -/
def pyList : JVal → Option (List JVal)
  | .arr xs => some xs
  | .str s => some (s.map (fun c => .str [c]))
  | .obj fs => some (fs.map (fun kv => .str kv.1))
  | _ => none

/-- Python truthiness, as used by `bool()`. -/
def pyBool : JVal → Bool
  | .null => false
  | .bool b => b
  | .int n => n != 0
  | .str s => !s.isEmpty
  | .arr xs => !xs.isEmpty
  | .obj fs => !fs.isEmpty

/-- `d[k]` / `d.get(k)`: first binding of the key. -/
def dictGet? (d : Dict) (k : Str) : Option JVal :=
  (d.find? (fun p => p.1 == k)).map (fun p => p.2)

/-- `d.get(k, v)`. -/
def dictGetD (d : Dict) (k : Str) (v : JVal) : JVal := (dictGet? d k).getD v

def kId : Str := ("id").toList
def kTitle : Str := ("title").toList
def kDescription : Str := ("description").toList
def kCreated : Str := ("created_at").toList
def kDue : Str := ("due").toList
def kTags : Str := ("tags").toList
def kDone : Str := ("done").toList

/-- A task as reconstructed by `Task.from_dict`: `due` and `tags` elements
are stored exactly as found in the input, without further coercion. -/
structure RawTask where
  id : Int
  title : Str
  description : Str
  created_at : Str
  due : JVal
  tags : List JVal
  done : Bool

/-- `Task.from_dict`: `int(d["id"])`, `str(d["title"])`,
`str(d.get("description", ""))`, `str(d.get("created_at", now))`,
`d.get("due", None)`, `list(d.get("tags", []))`, `bool(d.get("done", False))`;
any raised exception is converted to `ValueError` (`Err.validation`).
Subscripting a non-dict raises as well. -/
def from_dict (v : JVal) (now : Str) : Except Err RawTask :=
  match v with
  | .obj d =>
    match dictGet? d kId with
    | none => .error .validation
    | some vid =>
      match pyInt vid with
      | none => .error .validation
      | some i =>
        match dictGet? d kTitle with
        | none => .error .validation
        | some vt =>
          match pyList (dictGetD d kTags (.arr [])) with
          | none => .error .validation
          | some tg =>
            .ok { id := i, title := pyStr vt,
                  description := pyStr (dictGetD d kDescription (.str [])),
                  created_at := pyStr (dictGetD d kCreated (.str now)),
                  due := dictGetD d kDue .null,
                  tags := tg,
                  done := pyBool (dictGetD d kDone (.bool false)) }
  | _ => .error .validation

/-- The JSON value for an optional date field. -/
def jOfDue : Option Str → JVal
  | none => .null
  | some s => .str s

/-- `Task.to_serializable` (`dataclasses.asdict`), field order as declared. -/
def to_serializable (t : Task) : Dict :=
  [(kId, .int t.id), (kTitle, .str t.title), (kDescription, .str t.description),
   (kCreated, .str t.created_at), (kDue, jOfDue t.due), (kTags, .arr (t.tags.map .str)),
   (kDone, .bool t.done)]

/-- The raw view of a typed task; `from_dict` recovers exactly this from the
serialized form. -/
def Task.toRaw (t : Task) : RawTask :=
  { id := t.id, title := t.title, description := t.description,
    created_at := t.created_at, due := jOfDue t.due, tags := t.tags.map .str,
    done := t.done }

/-- `TodoDB.export`: the JSON document written to the target file. -/
def exportJSON (db : TodoDB) : JVal :=
  .arr (db.tasks.map (fun t => .obj (to_serializable t)))

/-- The list comprehension `[Task.from_dict(item) for item in data]`: records
are reconstructed left to right and the first raised failure propagates. -/
def fromDictAll (items : List JVal) (now : Str) : Except Err (List RawTask) :=
  match items with
  | [] => .ok []
  | it :: rest =>
    match from_dict it now with
    | .error e => .error e
    | .ok t =>
      match fromDictAll rest now with
      | .error e => .error e
      | .ok ts => .ok (t :: ts)

/-- `TodoDB.import_file` with `merge=False`, applied to the decoded document:
the reconstructed records replace the collection wholesale; every failure is
wrapped into `IOError`. -/
def import_replace (v : JVal) (now : Str) : Except Err (List RawTask) :=
  match v with
  | .arr items =>
    match fromDictAll items now with
    | .ok ts => .ok ts
    | .error _ => .error .ioFailure
  | _ => .error .ioFailure

/-- What `TodoDB._load` finds at the bound path: no file, an unreadable file,
a file that is not valid JSON, or a decoded JSON document. -/
inductive LoadSource where
  | missing
  | unreadable
  | invalidJSON
  | parsed (v : JVal)

/-- `TodoDB._load`: total — every failure is degraded to an empty collection,
with the Boolean recording whether a diagnostic was printed to stderr. -/
def loadDB (src : LoadSource) (now : Str) : List RawTask × Bool :=
  match src with
  | .missing => ([], false)
  | .unreadable => ([], true)
  | .invalidJSON => ([], true)
  | .parsed v =>
    match v with
    | .arr items =>
      match fromDictAll items now with
      | .ok ts => (ts, false)
      | .error _ => ([], true)
    | _ => ([], true)

/-! ## Helper lemmas -/

theorem find_by_id_ok_iff {db : TodoDB} {id : Int} {t : Task} :
    find_by_id db id = .ok t ↔ db.tasks.find? (fun u => u.id == id) = some t := by
  unfold find_by_id
  cases h : db.tasks.find? (fun u => u.id == id) <;> simp

theorem updateFirst_self {ts : List Task} {id : Int} {t : Task}
    (h : ts.find? (fun u => u.id == id) = some t) : updateFirst ts id t = ts := by
  induction ts with
  | nil => simp at h
  | cons a rest ih =>
    by_cases hp : (a.id == id) = true
    · rw [List.find?_cons_of_pos (p := fun u => u.id == id) rest hp] at h
      injection h with h
      subst h
      unfold updateFirst
      simp [hp]
    · rw [List.find?_cons_of_neg (p := fun u => u.id == id) rest (by simp_all)] at h
      unfold updateFirst
      simp [hp, ih h]

theorem le_foldl_max (xs : List Int) (x : Int) :
    x ≤ xs.foldl max x ∧ ∀ y ∈ xs, y ≤ xs.foldl max x := by
  induction xs generalizing x with
  | nil => simp
  | cons a l ih =>
    simp only [List.foldl_cons]
    obtain ⟨h1, h2⟩ := ih (max x a)
    refine ⟨le_trans (le_max_left x a) h1, fun y hy => ?_⟩
    rcases List.mem_cons.mp hy with rfl | hy
    · exact le_trans (le_max_right x y) h1
    · exact h2 y hy

theorem foldl_max_mem (xs : List Int) (x : Int) :
    xs.foldl max x = x ∨ xs.foldl max x ∈ xs := by
  induction xs generalizing x with
  | nil => simp
  | cons a l ih =>
    simp only [List.foldl_cons]
    rcases ih (max x a) with h | h
    · rcases max_cases x a with ⟨he, _⟩ | ⟨he, _⟩
      · left
        rw [h, he]
      · right
        rw [h, he]
        exact List.mem_cons_self a l
    · right
      exact List.mem_cons_of_mem a h

theorem next_id_of_empty {db : TodoDB} (h : db.tasks = []) : next_id db = 1 := by
  unfold next_id
  rw [h]
  rfl

theorem id_lt_next_id {db : TodoDB} {t : Task} (h : t ∈ db.tasks) :
    t.id < next_id db := by
  have hmem : t.id ∈ db.tasks.map Task.id := List.mem_map_of_mem Task.id h
  cases hm : db.tasks.map Task.id with
  | nil =>
    rw [hm] at hmem
    simp at hmem
  | cons x xs =>
    have hle : t.id ≤ xs.foldl max x := by
      rw [hm] at hmem
      rcases List.mem_cons.mp hmem with he | hmem2
      · exact he ▸ (le_foldl_max xs x).1
      · exact (le_foldl_max xs x).2 _ hmem2
    have hn : next_id db = xs.foldl max x + 1 := by
      unfold next_id
      rw [hm]
    omega

theorem next_id_eq_max_succ {db : TodoDB} (h : db.tasks ≠ []) :
    ∃ t ∈ db.tasks, next_id db = t.id + 1 := by
  cases hm : db.tasks.map Task.id with
  | nil =>
    rw [List.map_eq_nil_iff] at hm
    exact absurd hm h
  | cons x xs =>
    have hmem : xs.foldl max x ∈ x :: xs := by
      rcases foldl_max_mem xs x with he | he
      · rw [he]
        exact List.mem_cons_self x xs
      · exact List.mem_cons_of_mem x he
    rw [← hm] at hmem
    obtain ⟨t, ht, hid⟩ := List.mem_map.mp hmem
    refine ⟨t, ht, ?_⟩
    have hn : next_id db = xs.foldl max x + 1 := by
      unfold next_id
      rw [hm]
    rw [hn, hid]

/-! ## Claims C7, C8, C10 -/

/-- C7: for every store state and query, `search` returns exactly the records
whose lowered title, lowered description or lowered space-joined tag list
contains the lowered query as a substring; the result is a sublist of the
collection (original order preserved), and the empty query returns every
record. -/
theorem search_characterization (db : TodoDB) (q : Str) :
    (∀ t, t ∈ search db q ↔ t ∈ db.tasks ∧
        (lowerStr q <:+: lowerStr t.title ∨ lowerStr q <:+: lowerStr t.description ∨
          lowerStr q <:+: lowerStr (joinSpace t.tags))) ∧
    List.Sublist (search db q) db.tasks ∧
    search db [] = db.tasks := by
  refine ⟨fun t => ?_, List.filter_sublist _, ?_⟩
  · unfold search
    rw [List.mem_filter]
    simp only [Bool.or_eq_true, decide_eq_true_eq]
    rw [or_assoc]
  · unfold search
    apply List.filter_eq_self.mpr
    intro a _
    have : lowerStr [] <:+: lowerStr a.title := ⟨[], lowerStr a.title, by simp [lowerStr]⟩
    simp [this]

/-- C8: `_load` never raises: a missing file yields an empty collection with
no diagnostic; unparseable JSON, an unreadable file, a non-list root, or a
malformed record each degrade to an empty in-memory collection with a
recoverable warning; a well-formed list loads its records. -/
theorem load_fallback (now : Str) :
    loadDB .missing now = ([], false) ∧
    loadDB .invalidJSON now = ([], true) ∧
    loadDB .unreadable now = ([], true) ∧
    (∀ v : JVal, v.isArr = false → loadDB (.parsed v) now = ([], true)) ∧
    (∀ items e, fromDictAll items now = .error e →
        loadDB (.parsed (.arr items)) now = ([], true)) ∧
    (∀ items ts, fromDictAll items now = .ok ts →
        loadDB (.parsed (.arr items)) now = (ts, false)) := by
  refine ⟨rfl, rfl, rfl, fun v hv => ?_, fun items e he => ?_, fun items ts hts => ?_⟩
  · cases v <;> first | rfl | simp [JVal.isArr] at hv
  · simp [loadDB, he]
  · simp [loadDB, hts]

/-- C8 witness: the spec's own example — a file whose root is the object
`(\x7b"not": "a list"\x7d)` loads as an empty collection plus a warning. -/
theorem load_fallback_witness :
    loadDB (.parsed (.obj [(("not").toList, .str (("a list").toList))])) [] = ([], true) :=
  (load_fallback []).2.2.2.1 _ rfl

/-- C10: `add` with `due` equal to the empty string skips date validation
(the guard tests truthiness), succeeds, and the new record stores the empty
string itself in `due` — not normalized to absent — although the validator
rejects the empty string. -/
theorem add_empty_string_due (db : TodoDB) (now title description : Str)
    (tags : Option (List Str)) :
    (∃ task : Task, add db now title description (some []) tags =
        ({ tasks := db.tasks ++ [task] }, .ok task) ∧
        task.due = some [] ∧ task.due ≠ none) ∧
    validate_date [] = false := by
  exact ⟨⟨_, rfl, rfl, by simp⟩, rfl⟩

/-! ## Claims C1, C3 (edit/add error and field semantics) -/

/-- A one-task store used for concrete instances. -/
def task0 : Task :=
  { id := 1, title := ("a").toList, description := [], created_at := [],
    due := none, tags := [], done := false }

/-- The store holding exactly `task0`. -/
def db0 : TodoDB := ⟨[task0]⟩

/-- C1 (amended): a nonempty `due` string rejected by the validator makes
`add` fail with a validation error leaving the store exactly unchanged, and
makes `edit` fail with a validation error; `edit` leaves the store exactly
unchanged provided `title` and `description` are not supplied in the same
call (supplied ones are applied in place before the validation runs — see the
counterexample). -/
theorem invalid_due_rejected_unchanged (db : TodoDB) (now title description s : Str)
    (id : Int) (task : Task) (tags targs : Option (List Str))
    (hs : s ≠ []) (hbad : validate_date s = false) :
    add db now title description (some s) tags = (db, .error .validation) ∧
    (find_by_id db id = .ok task →
      edit db id none none (some s) targs = (db, .error .validation)) := by
  have hse : s.isEmpty = false := by
    cases s with
    | nil => exact absurd rfl hs
    | cons a l => rfl
  constructor
  · have hcond : (dueTruthy (some s) && !validate_date ((some s).getD [])) = true := by
      simp [dueTruthy, hse, hbad]
    simp only [add, hcond, if_true]
  · intro h
    have hf : db.tasks.find? (fun u => u.id == id) = some task := find_by_id_ok_iff.mp h
    simp only [edit, h, hse, hbad, Bool.false_eq_true, if_false]
    rw [updateFirst_self hf]

/-- C1 counterexample: an `edit` carrying both a new title and an invalid due
date fails with the validation error, yet the store is **not** the same after
the failed call — the title update was applied in place before the date
validation ran, falsifying the claim that the collection is exactly unchanged
after every failed call. -/
theorem edit_invalid_due_mutates :
    (edit db0 1 (some (("b").toList)) none (some (("2025-13-40").toList)) none).2 =
      .error .validation ∧
    (edit db0 1 (some (("b").toList)) none (some (("2025-13-40").toList)) none).1 ≠ db0 := by
  refine ⟨rfl, ?_⟩
  decide

/-- C1 witness: concrete instance of the amended statement. -/
theorem invalid_due_rejected_unchanged_witness :
    add db0 [] (("t").toList) [] (some (("2025-13-40").toList)) none =
      (db0, .error .validation) ∧
    edit db0 1 none none (some (("2025-13-40").toList)) none = (db0, .error .validation) := by
  have h := invalid_due_rejected_unchanged db0 [] (("t").toList) []
    (("2025-13-40").toList) 1 task0 none none (by decide) (by decide)
  exact ⟨h.1, h.2 (by rfl)⟩

/-- C3: for an id present in the store, `edit` leaves unsupplied fields
untouched; `due` unspecified leaves it unchanged, the empty-string sentinel
clears it, any other valid string is set, an invalid one fails with the
validation error; `tags` unspecified leaves them unchanged, a supplied list
replaces them entirely; all-unspecified `edit` is a content no-op. -/
theorem edit_unspecified_untouched (db : TodoDB) (id : Int) (task : Task)
    (h : find_by_id db id = .ok task) :
    edit db id none none none none = (db, .ok task) ∧
    (∀ tg, ∃ t4, edit db id none none none (some tg) =
        ({ tasks := updateFirst db.tasks id t4 }, .ok t4) ∧
        t4.title = task.title ∧ t4.description = task.description ∧
        t4.created_at = task.created_at ∧ t4.due = task.due ∧ t4.done = task.done ∧
        t4.id = task.id ∧ t4.tags = tg) ∧
    (∀ tg, ∃ t4, edit db id none none (some []) tg =
        ({ tasks := updateFirst db.tasks id t4 }, .ok t4) ∧
        t4.due = none ∧ t4.title = task.title ∧ t4.description = task.description ∧
        t4.created_at = task.created_at ∧ t4.done = task.done ∧ t4.id = task.id ∧
        t4.tags = (match tg with | none => task.tags | some l => l)) ∧
    (∀ s tg, s ≠ [] → validate_date s = true →
        ∃ t4, edit db id none none (some s) tg =
          ({ tasks := updateFirst db.tasks id t4 }, .ok t4) ∧
          t4.due = some s ∧ t4.title = task.title ∧ t4.description = task.description ∧
          t4.created_at = task.created_at ∧ t4.done = task.done ∧ t4.id = task.id ∧
          t4.tags = (match tg with | none => task.tags | some l => l)) ∧
    (∀ s tg, s ≠ [] → validate_date s = false →
        (edit db id none none (some s) tg).2 = .error .validation) := by
  have hf : db.tasks.find? (fun u => u.id == id) = some task := find_by_id_ok_iff.mp h
  refine ⟨?_, fun tg => ?_, fun tg => ?_, fun s tg hs hgood => ?_, fun s tg hs hbad => ?_⟩
  · simp only [edit, h, applyTags]
    rw [updateFirst_self hf]
  · refine ⟨{ task with tags := tg }, ?_, rfl, rfl, rfl, rfl, rfl, rfl, rfl⟩
    unfold edit
    rw [h]
    rfl
  · cases tg with
    | none =>
      refine ⟨{ task with due := none }, ?_, rfl, rfl, rfl, rfl, rfl, rfl, rfl⟩
      unfold edit
      rw [h]
      rfl
    | some l =>
      refine ⟨{ task with due := none, tags := l }, ?_, rfl, rfl, rfl, rfl, rfl, rfl, rfl⟩
      unfold edit
      rw [h]
      rfl
  · have hse : s.isEmpty = false := by
      cases s with
      | nil => exact absurd rfl hs
      | cons a l => rfl
    cases tg with
    | none =>
      refine ⟨{ task with due := some s }, ?_, rfl, rfl, rfl, rfl, rfl, rfl, rfl⟩
      unfold edit
      rw [h]
      dsimp only
      rw [hse, hgood]
      rfl
    | some l =>
      refine ⟨{ task with due := some s, tags := l }, ?_, rfl, rfl, rfl, rfl, rfl, rfl, rfl⟩
      unfold edit
      rw [h]
      dsimp only
      rw [hse, hgood]
      rfl
  · have hse : s.isEmpty = false := by
      cases s with
      | nil => exact absurd rfl hs
      | cons a l => rfl
    unfold edit
    rw [h]
    dsimp only
    rw [hse, hbad]
    rfl

/-- C3 witness: the all-unspecified `edit` on a concrete store. -/
theorem edit_unspecified_untouched_witness :
    edit db0 1 none none none none = (db0, .ok task0) :=
  (edit_unspecified_untouched db0 1 task0 (by rfl)).1

/-! ## Claims C4, C6 (id assignment invariants) -/

/-- Id-erased view of a task, for comparing record contents. -/
def eraseId (t : Task) : Task := { t with id := 0 }

theorem assignIds_map_id (base : Int) (ts : List Task) :
    (assignIds base ts).map Task.id =
      (List.range ts.length).map (fun k : Nat => base + (k : Int)) := by
  induction ts generalizing base with
  | nil => rfl
  | cons t rest ih =>
    simp only [assignIds, List.map_cons, List.length_cons, List.range_succ_eq_map,
      List.map_map, ih]
    congr 1
    · simp
    · apply List.map_congr_left
      intro a _
      simp only [Function.comp_apply]
      push_cast
      ring

theorem assignIds_erase (base : Int) (ts : List Task) :
    (assignIds base ts).map eraseId = ts.map eraseId := by
  induction ts generalizing base with
  | nil => rfl
  | cons t rest ih =>
    simp only [assignIds, List.map_cons, ih]
    rfl

/-- C4: merge-import appends the imported records after the existing ones,
assigns them fresh sequential ids starting at the current next id (ignoring
ids in the source data), and — given the store invariant that existing ids
are unique — the resulting collection has no duplicate ids. -/
theorem import_merge_fresh_ids (db : TodoDB) (ts : List Task) :
    (import_merge db ts).tasks.take db.tasks.length = db.tasks ∧
    ((import_merge db ts).tasks.drop db.tasks.length).map Task.id =
      (List.range ts.length).map (fun k : Nat => next_id db + (k : Int)) ∧
    ((import_merge db ts).tasks.drop db.tasks.length).map eraseId = ts.map eraseId ∧
    ((db.tasks.map Task.id).Nodup → ((import_merge db ts).tasks.map Task.id).Nodup) := by
  have he : (import_merge db ts).tasks = db.tasks ++ assignIds (next_id db) ts := rfl
  refine ⟨?_, ?_, ?_, ?_⟩
  · rw [he, List.take_left]
  · rw [he, List.drop_left, assignIds_map_id]
  · rw [he, List.drop_left, assignIds_erase]
  · intro hn
    rw [he, List.map_append, List.nodup_append]
    refine ⟨hn, ?_, ?_⟩
    · rw [assignIds_map_id]
      refine List.Nodup.map (f := fun k : Nat => next_id db + (k : Int)) ?_ (List.nodup_range _)
      intro a b hab
      simp only at hab
      omega
    · intro a ha hb
      rw [assignIds_map_id] at hb
      obtain ⟨k, _, hk⟩ := List.mem_map.mp hb
      obtain ⟨t, ht, hid⟩ := List.mem_map.mp ha
      have := @id_lt_next_id db _ ht
      omega

/-- A store with two tasks for concrete id-invariant instances. -/
def db4 : TodoDB := ⟨[task0, { task0 with id := 5 }]⟩

/-- C4 witness: merging a record whose source id collides with an existing id
still yields pairwise distinct ids. -/
theorem import_merge_fresh_ids_witness :
    ((import_merge db4 [task0]).tasks.map Task.id).Nodup :=
  (import_merge_fresh_ids db4 [task0]).2.2.2 (by decide)

theorem addMany_nodup (reqs : List AddReq) : ∀ db : TodoDB,
    (db.tasks.map Task.id).Nodup → ((addMany db reqs).tasks.map Task.id).Nodup := by
  induction reqs with
  | nil => exact fun db h => h
  | cons r rest ih =>
    intro db h
    have hstep :
        (((add db r.now r.title r.description r.due r.tags).1).tasks.map Task.id).Nodup := by
      unfold add
      split
      · exact h
      · simp only [List.map_append, List.map_cons, List.map_nil]
        rw [List.nodup_append]
        refine ⟨h, List.nodup_singleton _, ?_⟩
        intro a ha hb
        simp at hb
        obtain ⟨t, ht, hid⟩ := List.mem_map.mp ha
        have := @id_lt_next_id db _ ht
        omega
    exact ih _ hstep

/-- C6: `next_id` is one greater than the maximum present id (`1` on empty);
a successful `add` assigns exactly that id, strictly greater than every id
present at call time, and every sequence of `add` calls preserves id
uniqueness. -/
theorem next_id_add_invariants (db : TodoDB) :
    (db.tasks = [] → next_id db = 1) ∧
    (∀ t ∈ db.tasks, t.id < next_id db) ∧
    (db.tasks ≠ [] → ∃ t ∈ db.tasks, next_id db = t.id + 1) ∧
    (∀ now title description due tags db' task,
        add db now title description due tags = (db', .ok task) →
        task.id = next_id db ∧ ∀ u ∈ db.tasks, u.id < task.id) ∧
    (∀ reqs, (db.tasks.map Task.id).Nodup →
        ((addMany db reqs).tasks.map Task.id).Nodup) := by
  refine ⟨next_id_of_empty, fun t ht => id_lt_next_id ht, next_id_eq_max_succ, ?_,
    fun reqs => addMany_nodup reqs db⟩
  intro now title description due tags db' task h
  unfold add at h
  by_cases hc : (dueTruthy due && !validate_date (due.getD [])) = true
  · rw [if_pos hc] at h
    simp only [Prod.mk.injEq] at h
    exact absurd h.2 (by simp)
  · rw [if_neg hc] at h
    simp only [Prod.mk.injEq, Except.ok.injEq] at h
    obtain ⟨h1, h2⟩ := h
    subst h2
    exact ⟨rfl, fun u hu => id_lt_next_id hu⟩

/-- C6 witness: one `add` on the concrete store keeps ids unique. -/
theorem next_id_add_invariants_witness :
    ((addMany db0 [⟨[], ("x").toList, [], none, none⟩]).tasks.map Task.id).Nodup :=
  (next_id_add_invariants db0).2.2.2.2 [⟨[], ("x").toList, [], none, none⟩] (by decide)

/-! ## Claim C9 (from_dict characterization) -/

def JVal.isObj : JVal → Bool
  | .obj _ => true
  | _ => false

/-- C9 counterexample input: a record whose `tags` entry holds an integer. -/
def rawDict9 : Dict :=
  [(kId, .int 1), (kTitle, .str (("a").toList)), (kTags, .arr [.int 7])]

/-- The record reconstructed from `rawDict9`. -/
def rawTask9 : RawTask :=
  { id := 1, title := ("a").toList, description := [], created_at := [],
    due := .null, tags := [.int 7], done := false }

/-- C9 counterexample: reconstruction accepts a `tags` entry that is not text
and stores it unchanged, raising no validation error — the elements of `tags`
are *not* coerced to an ordered sequence of text as claimed. -/
theorem from_dict_keeps_nonstring_tags :
    from_dict (.obj rawDict9) [] = .ok rawTask9 ∧
    rawTask9.tags.all JVal.isStr = false :=
  ⟨rfl, rfl⟩

/-- C9 (amended): reconstruction coerces `id` to an integer and requires
`title` (coerced to text); every other absent field takes its documented
default (`description` empty, `created_at` the current clock value, `due`
absent, `tags` empty, `done` false); `tags` is coerced only to a *list* — its
elements are taken as-is, not coerced to text.  A missing or uncoercible
`id`, a missing `title`, a non-listable `tags`, or a non-dict input fails
with the validation error. -/
theorem from_dict_characterization (d : Dict) (now : Str) :
    (∀ r, from_dict (.obj d) now = .ok r →
      (∃ vid, dictGet? d kId = some vid ∧ pyInt vid = some r.id) ∧
      (∃ vt, dictGet? d kTitle = some vt ∧ r.title = pyStr vt) ∧
      r.description = pyStr (dictGetD d kDescription (.str [])) ∧
      r.created_at = pyStr (dictGetD d kCreated (.str now)) ∧
      r.due = dictGetD d kDue .null ∧
      pyList (dictGetD d kTags (.arr [])) = some r.tags ∧
      r.done = pyBool (dictGetD d kDone (.bool false)) ∧
      (dictGet? d kDescription = none → r.description = []) ∧
      (dictGet? d kCreated = none → r.created_at = now) ∧
      (dictGet? d kDue = none → r.due = .null) ∧
      (dictGet? d kTags = none → r.tags = []) ∧
      (dictGet? d kDone = none → r.done = false)) ∧
    (dictGet? d kId = none → from_dict (.obj d) now = .error .validation) ∧
    (∀ vid, dictGet? d kId = some vid → pyInt vid = none →
        from_dict (.obj d) now = .error .validation) ∧
    (dictGet? d kTitle = none → from_dict (.obj d) now = .error .validation) ∧
    (pyList (dictGetD d kTags (.arr [])) = none →
        from_dict (.obj d) now = .error .validation) ∧
    (∀ v : JVal, v.isObj = false → from_dict v now = .error .validation) := by
  refine ⟨?_, ?_, ?_, ?_, ?_, ?_⟩
  · intro r hr
    unfold from_dict at hr
    dsimp only at hr
    cases hid : dictGet? d kId with
    | none =>
      rw [hid] at hr
      exact absurd hr (by simp)
    | some vid =>
      rw [hid] at hr
      dsimp only at hr
      cases hpi : pyInt vid with
      | none =>
        rw [hpi] at hr
        exact absurd hr (by simp)
      | some i =>
        rw [hpi] at hr
        dsimp only at hr
        cases htl : dictGet? d kTitle with
        | none =>
          rw [htl] at hr
          exact absurd hr (by simp)
        | some vt =>
          rw [htl] at hr
          dsimp only at hr
          cases htg : pyList (dictGetD d kTags (.arr [])) with
          | none =>
            rw [htg] at hr
            exact absurd hr (by simp)
          | some tg =>
            rw [htg] at hr
            dsimp only at hr
            injection hr with hr
            subst hr
            refine ⟨⟨vid, rfl, by rw [hpi]⟩, ⟨vt, rfl, rfl⟩, rfl, rfl, rfl, rfl,
              rfl, ?_, ?_, ?_, ?_, ?_⟩
            · intro hD
              simp [dictGetD, hD, pyStr]
            · intro hC
              simp [dictGetD, hC, pyStr]
            · intro hDue
              simp [dictGetD, hDue]
            · intro hT
              unfold dictGetD at htg
              rw [hT] at htg
              simp only [Option.getD_none, pyList] at htg
              injection htg with htg
              exact htg.symm
            · intro hDn
              simp [dictGetD, hDn, pyBool]
  · intro hid
    unfold from_dict
    dsimp only
    rw [hid]
  · intro vid hid hpi
    unfold from_dict
    dsimp only
    rw [hid]
    dsimp only
    rw [hpi]
  · intro htl
    unfold from_dict
    dsimp only
    cases hid : dictGet? d kId with
    | none => rfl
    | some vid =>
      dsimp only
      cases hpi : pyInt vid with
      | none => rfl
      | some i =>
        dsimp only
        rw [htl]
  · intro htg
    unfold from_dict
    dsimp only
    cases hid : dictGet? d kId with
    | none => rfl
    | some vid =>
      dsimp only
      cases hpi : pyInt vid with
      | none => rfl
      | some i =>
        dsimp only
        cases htl : dictGet? d kTitle with
        | none => rfl
        | some vt =>
          dsimp only
          rw [htg]
  · intro v hv
    cases v <;> first | rfl | simp [JVal.isObj] at hv

/-- C9 witness: a record with no `title` key is rejected. -/
theorem from_dict_characterization_witness :
    from_dict (.obj [(kId, .int 7)]) [] = .error .validation :=
  (from_dict_characterization [(kId, .int 7)] []).2.2.2.1 rfl

/-! ## Claim C5 (export → import round-trip) -/

theorem from_dict_to_serializable (t : Task) (now : Str) :
    from_dict (.obj (to_serializable t)) now = .ok (Task.toRaw t) := rfl

theorem jOfDue_inj {o1 o2 : Option Str} (h : jOfDue o1 = jOfDue o2) : o1 = o2 := by
  cases o1 <;> cases o2 <;> simp_all [jOfDue]

theorem mapStr_inj {l1 l2 : List Str} (h : l1.map JVal.str = l2.map JVal.str) :
    l1 = l2 := by
  have hi : Function.Injective JVal.str := fun a b hab => by injection hab
  exact List.map_injective_iff.mpr hi h

theorem toRaw_injective : Function.Injective Task.toRaw := by
  intro a b h
  cases a
  cases b
  simp only [Task.toRaw, RawTask.mk.injEq] at h
  obtain ⟨h1, h2, h3, h4, h5, h6, h7⟩ := h
  simp only [Task.mk.injEq]
  exact ⟨h1, h2, h3, h4, jOfDue_inj h5, mapStr_inj h6, h7⟩

theorem fromDictAll_export (ts : List Task) (now : Str) :
    fromDictAll (ts.map (fun t => JVal.obj (to_serializable t))) now =
      .ok (ts.map Task.toRaw) := by
  induction ts with
  | nil => rfl
  | cons t rest ih =>
    simp only [List.map_cons]
    unfold fromDictAll
    rw [from_dict_to_serializable, ih]

/-- C5: exporting the collection and importing the result with `merge=False`
reproduces it: parsing the exported document succeeds and yields, in order,
exactly the raw views of the original records; the raw view preserves every
field (`due` and `tags` embedded by `jOfDue` / `JVal.str`) and is injective,
so the replacement collection determines the original records, ids included. -/
theorem export_import_roundtrip (db : TodoDB) (now : Str) :
    import_replace (exportJSON db) now = .ok (db.tasks.map Task.toRaw) ∧
    (∀ t : Task, (Task.toRaw t).id = t.id ∧ (Task.toRaw t).title = t.title ∧
      (Task.toRaw t).description = t.description ∧
      (Task.toRaw t).created_at = t.created_at ∧ (Task.toRaw t).due = jOfDue t.due ∧
      (Task.toRaw t).tags = t.tags.map JVal.str ∧ (Task.toRaw t).done = t.done) ∧
    Function.Injective Task.toRaw := by
  refine ⟨?_, fun t => ⟨rfl, rfl, rfl, rfl, rfl, rfl, rfl⟩, toRaw_injective⟩
  unfold import_replace exportJSON
  dsimp only
  rw [fromDictAll_export]

/-- C5 witness: the concrete one-task store round-trips. -/
theorem export_import_roundtrip_witness :
    import_replace (exportJSON db0) [] = .ok [Task.toRaw task0] :=
  (export_import_roundtrip db0 []).1

/-! ## Claim C2 (date-validator characterization)

The claim states the validator accepts exactly four-digit-year, two-digit
month, two-digit day strings denoting real calendar dates.  The `strptime`
pattern is laxer: month and day may be written with one digit, and the day
may also be space-padded.  `specDateClaim` renders the claim as written;
`SpecDateAmended` renders the amended format. -/

/-- The claim as written: exactly `YYYY-MM-DD` — four digits, hyphen, two
digits, hyphen, two digits — denoting a real calendar date. -/
def specDateClaim (s : Str) : Bool :=
  match s with
  | [y1, y2, y3, y4, '-', m1, m2, '-', d1, d2] =>
    isDigitChar y1 && isDigitChar y2 && isDigitChar y3 && isDigitChar y4 &&
    isDigitChar m1 && isDigitChar m2 && isDigitChar d1 && isDigitChar d2 &&
    dateOk (strVal [y1, y2, y3, y4]) (strVal [m1, m2]) (strVal [d1, d2])
  | _ => false

/-- A month/day field of one or two ASCII digits with the given value. -/
def DigitsForm (ps : Str) (v : Nat) : Prop :=
  (∀ c ∈ ps, isDigitChar c = true) ∧ 1 ≤ ps.length ∧ ps.length ≤ 2 ∧ strVal ps = v

/-- A day field: one or two digits, or a space followed by one digit (the
extra alternative of the `%d` pattern). -/
def DayForm (ps : Str) (v : Nat) : Prop :=
  DigitsForm ps v ∨ ∃ c, ps = [' ', c] ∧ isDigitChar c = true ∧ digitVal c = v

/-- The amended format: a four-digit year, a one- or two-digit month with
value 1..12, and a day written with one or two digits or as a space-padded
single digit, separated by hyphens, denoting a real calendar date (year at
least 1, day within the month's length). -/
def SpecDateAmended (s : Str) : Prop :=
  ∃ ys ms ds y m d,
    s = ys ++ '-' :: (ms ++ '-' :: ds) ∧
    ys.length = 4 ∧ (∀ c ∈ ys, isDigitChar c = true) ∧ strVal ys = y ∧
    DigitsForm ms m ∧ DayForm ds d ∧
    1 ≤ y ∧ 1 ≤ m ∧ m ≤ 12 ∧ 1 ≤ d ∧ d ≤ daysInMonth y m

/-- C2 counterexample: the validator accepts `"2025-1-1"`, which is not in
the claimed two-digit-month/two-digit-day format, so acceptance is not
equivalent to the claim as stated. -/
theorem validate_date_accepts_unpadded :
    validate_date (("2025-1-1").toList) = true ∧
    specDateClaim (("2025-1-1").toList) = false := by
  exact ⟨by decide, by decide⟩

/-! Digit-class facts, proved by finite case analysis. -/

theorem digit_cases {c : Char} (h : isDigitChar c = true) :
    c = '0' ∨ c = '1' ∨ c = '2' ∨ c = '3' ∨ c = '4' ∨ c = '5' ∨ c = '6' ∨
      c = '7' ∨ c = '8' ∨ c = '9' := by
  simp only [isDigitChar, List.mem_cons, List.not_mem_nil, or_false,
    decide_eq_true_eq] at h
  exact h

theorem digitVal_le_nine {c : Char} (h : isDigitChar c = true) : digitVal c ≤ 9 := by
  rcases digit_cases h with rfl | rfl | rfl | rfl | rfl | rfl | rfl | rfl | rfl | rfl <;>
    decide

theorem digit_pos_mem {c : Char} (h : isDigitChar c = true) (h1 : 1 ≤ digitVal c) :
    c ∈ ['1', '2', '3', '4', '5', '6', '7', '8', '9'] := by
  rcases digit_cases h with rfl | rfl | rfl | rfl | rfl | rfl | rfl | rfl | rfl | rfl
  · exact absurd h1 (by decide)
  all_goals decide

theorem digit_le2_mem {c : Char} (h : isDigitChar c = true) (h2 : digitVal c ≤ 2) :
    c ∈ ['0', '1', '2'] := by
  rcases digit_cases h with rfl | rfl | rfl | rfl | rfl | rfl | rfl | rfl | rfl | rfl
  · decide
  · decide
  · decide
  all_goals exact absurd h2 (by decide)

theorem digit_le1_mem {c : Char} (h : isDigitChar c = true) (h2 : digitVal c ≤ 1) :
    c ∈ ['0', '1'] := by
  rcases digit_cases h with rfl | rfl | rfl | rfl | rfl | rfl | rfl | rfl | rfl | rfl
  · decide
  · decide
  all_goals exact absurd h2 (by decide)

theorem mem012_facts {c : Char} (h : c ∈ ['0', '1', '2']) :
    isDigitChar c = true ∧ digitVal c ≤ 2 := by
  simp only [List.mem_cons, List.not_mem_nil, or_false] at h
  rcases h with rfl | rfl | rfl <;> exact ⟨by decide, by decide⟩

theorem mem01_facts {c : Char} (h : c ∈ ['0', '1']) :
    isDigitChar c = true ∧ digitVal c ≤ 1 := by
  simp only [List.mem_cons, List.not_mem_nil, or_false] at h
  rcases h with rfl | rfl <;> exact ⟨by decide, by decide⟩

theorem mem19_facts {c : Char} (h : c ∈ ['1', '2', '3', '4', '5', '6', '7', '8', '9']) :
    isDigitChar c = true ∧ 1 ≤ digitVal c ∧ digitVal c ≤ 9 := by
  simp only [List.mem_cons, List.not_mem_nil, or_false] at h
  rcases h with rfl | rfl | rfl | rfl | rfl | rfl | rfl | rfl | rfl <;>
    exact ⟨by decide, by decide, by decide⟩

theorem memday_facts {c : Char} (h : c ∈ ['1', '2', '4', '5', '6', '7', '8', '9']) :
    isDigitChar c = true ∧ 1 ≤ digitVal c ∧ digitVal c ≤ 9 := by
  simp only [List.mem_cons, List.not_mem_nil, or_false] at h
  rcases h with rfl | rfl | rfl | rfl | rfl | rfl | rfl | rfl <;>
    exact ⟨by decide, by decide, by decide⟩

theorem strVal_one (c : Char) : strVal [c] = digitVal c := by
  simp [strVal]

theorem strVal_pair (a b : Char) : strVal [a, b] = 10 * digitVal a + digitVal b := by
  simp [strVal]
  ring

theorem strVal_four (a b c d : Char) :
    strVal [a, b, c, d] =
      1000 * digitVal a + 100 * digitVal b + 10 * digitVal c + digitVal d := by
  simp [strVal]
  ring

theorem strVal_four_le {a b c d : Char} (ha : isDigitChar a = true)
    (hb : isDigitChar b = true) (hc : isDigitChar c = true)
    (hd : isDigitChar d = true) : strVal [a, b, c, d] ≤ 9999 := by
  have h1 := digitVal_le_nine ha
  have h2 := digitVal_le_nine hb
  have h3 := digitVal_le_nine hc
  have h4 := digitVal_le_nine hd
  rw [strVal_four]
  omega

/-! Inversion lemmas: what a successful parse says about the input. -/

theorem parseY_some {s r : Str} {y : Nat} (h : parseY s = some (y, r)) :
    ∃ c1 c2 c3 c4, s = c1 :: c2 :: c3 :: c4 :: r ∧
      (∀ c ∈ [c1, c2, c3, c4], isDigitChar c = true) ∧ strVal [c1, c2, c3, c4] = y := by
  unfold parseY at h
  split at h
  · rename_i c1 c2 c3 c4 rest
    split at h
    · rename_i hd
      simp only [Option.some.injEq, Prod.mk.injEq] at h
      obtain ⟨hy, hr⟩ := h
      subst hr
      refine ⟨c1, c2, c3, c4, rfl, ?_, hy⟩
      simp only [Bool.and_eq_true] at hd
      obtain ⟨⟨⟨h1, h2⟩, h3⟩, h4⟩ := hd
      intro c hc
      simp only [List.mem_cons, List.not_mem_nil, or_false] at hc
      rcases hc with rfl | rfl | rfl | rfl <;> assumption
    · exact absurd h (by simp)
  · exact absurd h (by simp)

theorem expectDash_some {s r : Str} (h : expectDash s = some r) : s = '-' :: r := by
  unfold expectDash at h
  split at h
  · injection h with h
    subst h
    rfl
  · exact absurd h (by simp)

theorem parseM_some {s r : Str} {m : Nat} (h : parseM s = some (m, r)) :
    ∃ ms, s = ms ++ r ∧ DigitsForm ms m ∧ 1 ≤ m ∧ m ≤ 12 := by
  unfold parseM at h
  split at h
  · rename_i c rest
    split at h
    · rename_i hc
      obtain ⟨hcd, hc2⟩ := mem012_facts hc
      simp only [Option.some.injEq, Prod.mk.injEq] at h
      obtain ⟨hm, hr⟩ := h
      subst hr
      refine ⟨['1', c], rfl, ⟨?_, by simp, by simp, hm⟩, ?_, ?_⟩
      · intro x hx
        simp only [List.mem_cons, List.not_mem_nil, or_false] at hx
        rcases hx with rfl | rfl
        · decide
        · exact hcd
      · rw [← hm, strVal_pair]
        have : digitVal '1' = 1 := by decide
        omega
      · rw [← hm, strVal_pair]
        have : digitVal '1' = 1 := by decide
        omega
    · simp only [Option.some.injEq, Prod.mk.injEq] at h
      obtain ⟨hm, hr⟩ := h
      subst hr
      refine ⟨['1'], rfl, ⟨?_, by simp, by simp, ?_⟩, by omega, by omega⟩
      · intro x hx
        simp only [List.mem_cons, List.not_mem_nil, or_false] at hx
        rcases hx with rfl
        decide
      · rw [← hm]
        decide
  · rename_i c rest
    split at h
    · rename_i hc
      obtain ⟨hcd, hc1, hc9⟩ := mem19_facts hc
      simp only [Option.some.injEq, Prod.mk.injEq] at h
      obtain ⟨hm, hr⟩ := h
      subst hr
      refine ⟨['0', c], rfl, ⟨?_, by simp, by simp, hm⟩, ?_, ?_⟩
      · intro x hx
        simp only [List.mem_cons, List.not_mem_nil, or_false] at hx
        rcases hx with rfl | rfl
        · decide
        · exact hcd
      · rw [← hm, strVal_pair]
        have : digitVal '0' = 0 := by decide
        omega
      · rw [← hm, strVal_pair]
        have : digitVal '0' = 0 := by decide
        omega
    · exact absurd h (by simp)
  · rename_i c rest hn1 hn2
    split at h
    · rename_i hc
      obtain ⟨hcd, hc1, hc9⟩ := mem19_facts hc
      simp only [Option.some.injEq, Prod.mk.injEq] at h
      obtain ⟨hm, hr⟩ := h
      subst hr
      refine ⟨[c], rfl, ⟨?_, by simp, by simp, hm⟩, ?_, ?_⟩
      · intro x hx
        simp only [List.mem_cons, List.not_mem_nil, or_false] at hx
        rcases hx with rfl
        exact hcd
      · rw [← hm, strVal_one]
        omega
      · rw [← hm, strVal_one]
        omega
    · exact absurd h (by simp)
  · exact absurd h (by simp)

theorem parseD_some {s r : Str} {d : Nat} (h : parseD s = some (d, r)) :
    ∃ ds, s = ds ++ r ∧ DayForm ds d ∧ 1 ≤ d ∧ d ≤ 31 := by
  unfold parseD at h
  split at h
  · rename_i c rest
    split at h
    · rename_i hc
      obtain ⟨hcd, hc1⟩ := mem01_facts hc
      simp only [Option.some.injEq, Prod.mk.injEq] at h
      obtain ⟨hd, hr⟩ := h
      subst hr
      refine ⟨['3', c], rfl, .inl ⟨?_, by simp, by simp, hd⟩, ?_, ?_⟩
      · intro x hx
        simp only [List.mem_cons, List.not_mem_nil, or_false] at hx
        rcases hx with rfl | rfl
        · decide
        · exact hcd
      · rw [← hd, strVal_pair]
        have : digitVal '3' = 3 := by decide
        omega
      · rw [← hd, strVal_pair]
        have : digitVal '3' = 3 := by decide
        omega
    · simp only [Option.some.injEq, Prod.mk.injEq] at h
      obtain ⟨hd, hr⟩ := h
      subst hr
      refine ⟨['3'], rfl, .inl ⟨?_, by simp, by simp, ?_⟩, by omega, by omega⟩
      · intro x hx
        simp only [List.mem_cons, List.not_mem_nil, or_false] at hx
        rcases hx with rfl
        decide
      · rw [← hd]
        decide
  · rename_i c rest
    split at h
    · rename_i hc
      obtain ⟨hcd, hc1, hc9⟩ := mem19_facts hc
      simp only [Option.some.injEq, Prod.mk.injEq] at h
      obtain ⟨hd, hr⟩ := h
      subst hr
      refine ⟨['0', c], rfl, .inl ⟨?_, by simp, by simp, hd⟩, ?_, ?_⟩
      · intro x hx
        simp only [List.mem_cons, List.not_mem_nil, or_false] at hx
        rcases hx with rfl | rfl
        · decide
        · exact hcd
      · rw [← hd, strVal_pair]
        have : digitVal '0' = 0 := by decide
        omega
      · rw [← hd, strVal_pair]
        have : digitVal '0' = 0 := by decide
        omega
    · exact absurd h (by simp)
  · rename_i c rest
    split at h
    · rename_i hc
      obtain ⟨hcd, hc1, hc9⟩ := mem19_facts hc
      simp only [Option.some.injEq, Prod.mk.injEq] at h
      obtain ⟨hd, hr⟩ := h
      subst hr
      refine ⟨[' ', c], rfl, .inr ⟨c, rfl, hcd, by rw [← hd, strVal_one]⟩, ?_, ?_⟩
      · rw [← hd, strVal_one]
        omega
      · rw [← hd, strVal_one]
        omega
    · exact absurd h (by simp)
  · rename_i c1 c2 rest hn1 hn2 hn3
    split at h
    · rename_i hc
      simp only [Bool.and_eq_true, Bool.or_eq_true, decide_eq_true_eq] at hc
      obtain ⟨hc1, hc2⟩ := hc
      have hd1 : isDigitChar c1 = true ∧ 1 ≤ digitVal c1 ∧ digitVal c1 ≤ 2 := by
        rcases hc1 with rfl | rfl <;> exact ⟨by decide, by decide, by decide⟩
      simp only [Option.some.injEq, Prod.mk.injEq] at h
      obtain ⟨hd, hr⟩ := h
      subst hr
      refine ⟨[c1, c2], rfl, .inl ⟨?_, by simp, by simp, hd⟩, ?_, ?_⟩
      · intro x hx
        simp only [List.mem_cons, List.not_mem_nil, or_false] at hx
        rcases hx with rfl | rfl
        · exact hd1.1
        · exact hc2
      · rw [← hd, strVal_pair]
        omega
      · rw [← hd, strVal_pair]
        have h9 := digitVal_le_nine hc2
        have := hd1.2.2
        omega
    · split at h
      · rename_i hc1
        obtain ⟨hcd, hp1, hp9⟩ := memday_facts hc1
        simp only [Option.some.injEq, Prod.mk.injEq] at h
        obtain ⟨hd, hr⟩ := h
        subst hr
        refine ⟨[c1], rfl, .inl ⟨?_, by simp, by simp, hd⟩, ?_, ?_⟩
        · intro x hx
          simp only [List.mem_cons, List.not_mem_nil, or_false] at hx
          rcases hx with rfl
          exact hcd
        · rw [← hd, strVal_one]
          omega
        · rw [← hd, strVal_one]
          omega
      · exact absurd h (by simp)
  · rename_i c
    split at h
    · rename_i hc
      obtain ⟨hcd, hc1, hc9⟩ := mem19_facts hc
      simp only [Option.some.injEq, Prod.mk.injEq] at h
      obtain ⟨hd, hr⟩ := h
      subst hr
      refine ⟨[c], by simp, .inl ⟨?_, by simp, by simp, hd⟩, ?_, ?_⟩
      · intro x hx
        simp only [List.mem_cons, List.not_mem_nil, or_false] at hx
        rcases hx with rfl
        exact hcd
      · rw [← hd, strVal_one]
        omega
      · rw [← hd, strVal_one]
        omega
    · exact absurd h (by simp)
  · exact absurd h (by simp)

/-! Evaluation lemmas: the parsers accept every rendered field. -/

theorem daysInMonth_le (y m : Nat) : daysInMonth y m ≤ 31 := by
  unfold daysInMonth
  split_ifs <;> omega

theorem strVal_len4_le {ys : Str} (hlen : ys.length = 4)
    (hdig : ∀ c ∈ ys, isDigitChar c = true) : strVal ys ≤ 9999 := by
  rcases ys with _ | ⟨a, _ | ⟨b, _ | ⟨c, _ | ⟨d, _ | ⟨e, t⟩⟩⟩⟩⟩
  · simp at hlen
  · simp at hlen
  · simp at hlen
  · simp at hlen
  · exact strVal_four_le (hdig a (by simp)) (hdig b (by simp)) (hdig c (by simp))
      (hdig d (by simp))
  · simp only [List.length_cons] at hlen
    omega

theorem parseY_eval {ys : Str} (hlen : ys.length = 4)
    (hdig : ∀ c ∈ ys, isDigitChar c = true) (r : Str) :
    parseY (ys ++ r) = some (strVal ys, r) := by
  rcases ys with _ | ⟨a, _ | ⟨b, _ | ⟨c, _ | ⟨d, _ | ⟨e, t⟩⟩⟩⟩⟩
  · simp at hlen
  · simp at hlen
  · simp at hlen
  · simp at hlen
  · have ha := hdig a (by simp)
    have hb := hdig b (by simp)
    have hc := hdig c (by simp)
    have hd := hdig d (by simp)
    show parseY (a :: b :: c :: d :: r) = some (strVal [a, b, c, d], r)
    unfold parseY
    dsimp only
    rw [ha, hb, hc, hd]
    rfl
  · simp only [List.length_cons] at hlen
    omega

theorem parseM_eval {ms : Str} {m : Nat} (hM : DigitsForm ms m) (h1 : 1 ≤ m)
    (h12 : m ≤ 12) (t : Str) :
    parseM (ms ++ '-' :: t) = some (m, '-' :: t) := by
  obtain ⟨hdig, hl1, hl2, hval⟩ := hM
  rcases ms with _ | ⟨a, _ | ⟨b, ms⟩⟩
  · simp at hl1
  · have ha := hdig a (by simp)
    rw [strVal_one] at hval
    subst hval
    rcases digit_cases ha with rfl | rfl | rfl | rfl | rfl | rfl | rfl | rfl | rfl | rfl <;>
      first
        | rfl
        | exact absurd h1 (by decide)
  · rcases ms with _ | ⟨c, ms⟩
    · have ha := hdig a (by simp)
      have hb := hdig b (by simp)
      rw [strVal_pair] at hval
      subst hval
      rcases digit_cases ha with rfl | rfl | rfl | rfl | rfl | rfl | rfl | rfl | rfl | rfl <;>
        rcases digit_cases hb with rfl | rfl | rfl | rfl | rfl | rfl | rfl | rfl | rfl | rfl <;>
          first
            | rfl
            | exact absurd h1 (by decide)
            | exact absurd h12 (by decide)
    · simp only [List.length_cons] at hl2
      omega

theorem parseD_eval {ds : Str} {d : Nat} (hD : DayForm ds d) (h1 : 1 ≤ d)
    (h31 : d ≤ 31) : parseD ds = some (d, []) := by
  rcases hD with ⟨hdig, hl1, hl2, hval⟩ | ⟨c, rfl, hcd, hcv⟩
  · rcases ds with _ | ⟨a, _ | ⟨b, ds⟩⟩
    · simp at hl1
    · have ha := hdig a (by simp)
      rw [strVal_one] at hval
      subst hval
      rcases digit_cases ha with rfl | rfl | rfl | rfl | rfl | rfl | rfl | rfl | rfl | rfl <;>
        first
          | decide
          | exact absurd h1 (by decide)
    · rcases ds with _ | ⟨e, ds⟩
      · have ha := hdig a (by simp)
        have hb := hdig b (by simp)
        rw [strVal_pair] at hval
        subst hval
        rcases digit_cases ha with rfl | rfl | rfl | rfl | rfl | rfl | rfl | rfl | rfl | rfl <;>
          rcases digit_cases hb with rfl | rfl | rfl | rfl | rfl | rfl | rfl | rfl | rfl | rfl <;>
            first
              | decide
              | exact absurd h1 (by decide)
              | exact absurd h31 (by decide)
      · simp only [List.length_cons] at hl2
        omega
  · subst hcv
    rcases digit_cases hcd with rfl | rfl | rfl | rfl | rfl | rfl | rfl | rfl | rfl | rfl <;>
      first
        | decide
        | exact absurd h1 (by decide)

/-- C2 (amended): the validator accepts a string exactly when it consists of
a four-digit year, a one- or two-digit month, and a one- or two-digit (or
space-padded single-digit) day, separated by hyphens, whose values denote a
real calendar date with year at least 1 — Python `strptime` does not require
the zero-padded two-digit month and day of the claimed `YYYY-MM-DD` format. -/
theorem validate_date_characterization (s : Str) :
    validate_date s = true ↔ SpecDateAmended s := by
  constructor
  · intro h
    unfold validate_date at h
    rw [Option.isSome_iff_exists] at h
    obtain ⟨⟨y, m, d⟩, h⟩ := h
    unfold strptimeYmd at h
    simp only [bind, Option.bind_eq_some] at h
    obtain ⟨⟨y1, r1⟩, hY, h⟩ := h
    obtain ⟨r2, hE1, h⟩ := h
    obtain ⟨⟨m1, r3⟩, hM, h⟩ := h
    obtain ⟨r4, hE2, h⟩ := h
    obtain ⟨⟨d1, r5⟩, hD, h⟩ := h
    split at h
    · split at h
      · rename_i hr5 hok
        injection h with h
        have h3 : y1 = y ∧ m1 = m ∧ d1 = d := by simpa [Prod.mk.injEq] using h
        obtain ⟨hy, hm, hd⟩ := h3
        subst hy
        subst hm
        subst hd
        subst hr5
        dsimp only at hE1 hE2 hD
        obtain ⟨c1, c2, c3, c4, hs1, hdig, hyv⟩ := parseY_some hY
        have hr1 := expectDash_some hE1
        obtain ⟨ms, hs2, hMf, hm1, hm12⟩ := parseM_some hM
        have hr3 := expectDash_some hE2
        obtain ⟨ds, hs3, hDf, hd1, hd31⟩ := parseD_some hD
        rw [List.append_nil] at hs3
        simp only [dateOk, decide_eq_true_eq] at hok
        subst hs1
        refine ⟨[c1, c2, c3, c4], ms, ds, y1, m1, d1, ?_, by simp, hdig, hyv, hMf, hDf,
          hok.1, hm1, hm12, hok.2.2.2.2.1, hok.2.2.2.2.2⟩
        rw [hr1, hs2, hr3, hs3]
        simp
      · exact absurd h (by simp)
    · exact absurd h (by simp)
  · rintro ⟨ys, ms, ds, y, m, d, rfl, hylen, hydig, hyval, hMf, hDf, hy1, hm1, hm12,
      hd1, hdm⟩
    have h1e := parseY_eval hylen hydig ('-' :: (ms ++ '-' :: ds))
    have h2e : expectDash ('-' :: (ms ++ '-' :: ds)) = some (ms ++ '-' :: ds) := rfl
    have h3e := parseM_eval hMf hm1 hm12 ds
    have h4e : expectDash ('-' :: ds) = some ds := rfl
    have h5e : parseD ds = some (d, []) := parseD_eval hDf hd1 (le_trans hdm (daysInMonth_le y m))
    have hok : dateOk y m d = true := by
      simp only [dateOk, decide_eq_true_eq]
      refine ⟨hy1, ?_, hm1, hm12, hd1, hdm⟩
      rw [← hyval]
      exact strVal_len4_le hylen hydig
    unfold validate_date strptimeYmd
    simp only [Option.bind_eq_bind']
    rw [h1e, Option.some_bind]
    try dsimp only
    rw [h2e, Option.some_bind]
    try dsimp only
    rw [h3e, Option.some_bind]
    try dsimp only
    rw [h4e, Option.some_bind]
    try dsimp only
    rw [h5e, Option.some_bind]
    try dsimp only
    rw [hyval, hok]
    rfl

/-- C2 witness: `"2024-2-29"` — unpadded month, leap-year day — is accepted,
via the amended characterization. -/
theorem validate_date_characterization_witness :
    validate_date (("2024-2-29").toList) = true :=
  (validate_date_characterization (("2024-2-29").toList)).mpr
    ⟨("2024").toList, ("2").toList, ("29").toList, 2024, 2, 29, by decide, by decide,
      by decide, by decide, ⟨by decide, by decide, by decide, by decide⟩,
      .inl ⟨by decide, by decide, by decide, by decide⟩, by decide, by decide,
      by decide, by decide, by decide⟩

end TodoSpec
